import Mathlib

/-!
Verification development for the habit tracker (`habit_tracker_updated.py`).

The persisted store maps habit names to lists of completion entries.
A structured entry is a dict `{date: <ISO string>, duration: None | {totalSeconds, formatted}}`;
legacy persisted lists hold bare date strings.  We shallowly embed:

* the typed in-memory data model (`Duration`, `Entry`, `Store` as an association
  list, matching Python dict insertion order);
* the persisted JSON level (`PVal`) needed for the legacy migration in `load_data`;
* the completion-engine operations (`mark_habit`, `timed_habit`, `edit_habit`,
  the average-duration computation of `view_habits`);
* the reminder-reconciliation string processing (`extract_habits_from_reminder`
  and the candidate matching of `do_reminded_habit`), over `List Char` so that
  all string operations are structural and computable;
* the service gateways as total functions over an abstract `HttpOutcome`,
  whose `netError` constructor stands for any exception caught by the Python
  `try/except` (network error, timeout, unparseable JSON is `response _ none`).

Python `str.strip`/`str.lower` are modelled with `Char.isWhitespace` /
`Char.toLower` (ASCII); all inputs appearing in the claims are ASCII apart
from the alarm-clock symbol, which neither function touches.
-/

/-- Duration payload returned by the timer service:
`{totalSeconds, formatted}` (`elapsedTime` in the stop-timer response). -/
structure Duration where
  totalSeconds : Nat
  formatted : String
deriving DecidableEq

/-- A structured completion entry `{date, duration}` as written by
`mark_habit` / `timed_habit` (`duration = none` models JSON `null`). -/
structure Entry where
  date : String
  duration : Option Duration
deriving DecidableEq

/-- The in-memory habit store: habit name to entry list, in dict insertion
order (Python dicts preserve insertion order). -/
abbrev Store := List (String × List Entry)

/-- Python: `any(entry.get("date") == today for entry in data[name] if isinstance(entry, dict))`,
specialised to the typed level, where every entry is a dict. -/
def isCompletedToday (entries : List Entry) (today : String) : Bool :=
  entries.any (fun e => e.date == today)

/-- Membership test `name in data` on the store keys. -/
def hasHabit : Store → String → Bool
  | [], _ => false
  | p :: t, name => p.1 == name || hasHabit t name

/-- Lookup `data[name]` (the empty list when the key is absent; every caller
in the source checks membership first). -/
def entriesOf : Store → String → List Entry
  | [], _ => []
  | p :: t, name => if p.1 = name then p.2 else entriesOf t name

/-- Python `data[name].append(e)`: append `e` to the entry list stored under
`name`, leaving every other binding untouched. -/
def store_append : Store → String → Entry → Store
  | [], _, _ => []
  | p :: t, name, e =>
      (if p.1 = name then (p.1, p.2 ++ [e]) else p) :: store_append t name e

/-- Core of `mark_habit` (lines 326-344): if the habit exists and is not yet
completed today, append `{date: today, duration: None}` and save; otherwise
report and leave the store alone.  The boolean records whether `save_data`
was called (i.e. whether the store was re-saved with a new entry). -/
def mark_habit (data : Store) (name today : String) : Store × Bool :=
  if hasHabit data name then
    if isCompletedToday (entriesOf data name) today then (data, false)
    else (store_append data name ⟨today, none⟩, true)
  else (data, false)

/-- Core of `timed_habit` (lines 450-529): when already completed today the
user may explicitly override (`override`); the appended entry carries the
elapsed duration from the timer service, or `None` when stopping failed. -/
def timed_habit (data : Store) (name today : String) (override : Bool)
    (elapsed : Option Duration) : Store :=
  if hasHabit data name then
    if isCompletedToday (entriesOf data name) today && !override then data
    else store_append data name ⟨today, elapsed⟩
  else data

theorem hasHabit_store_append (data : Store) (name n : String) (e : Entry) :
    hasHabit (store_append data name e) n = hasHabit data n := by
  induction data with
  | nil => rfl
  | cons p t ih =>
    by_cases h : p.1 = name <;> simp [store_append, hasHabit, h, ih]

theorem keys_store_append (data : Store) (name : String) (e : Entry) :
    (store_append data name e).map Prod.fst = data.map Prod.fst := by
  induction data with
  | nil => rfl
  | cons p t ih =>
    by_cases h : p.1 = name <;> simp [store_append, h, ih]

theorem entriesOf_store_append_self (data : Store) (name : String) (e : Entry) :
    hasHabit data name = true →
    entriesOf (store_append data name e) name = entriesOf data name ++ [e] := by
  induction data with
  | nil => intro h; simp [hasHabit] at h
  | cons p t ih =>
    intro h
    by_cases hp : p.1 = name
    · simp [store_append, entriesOf, hp]
    · have ht : hasHabit t name = true := by
        simpa [hasHabit, hp] using h
      simpa [store_append, entriesOf, hp] using ih ht

theorem entriesOf_store_append_other (data : Store) (name n : String) (e : Entry)
    (h : n ≠ name) :
    entriesOf (store_append data name e) n = entriesOf data n := by
  induction data with
  | nil => rfl
  | cons p t ih =>
    by_cases hp : p.1 = name
    · have hpn : p.1 ≠ n := fun hc => h (hc ▸ hp)
      simp [store_append, entriesOf, hp, hpn, ih, Ne.symm h]
    · by_cases hn : p.1 = n
      · have h2 : ¬ n = name := hn ▸ hp
        simp [store_append, entriesOf, hn, h2]
      · simp [store_append, entriesOf, hp, hn, ih]

/-! ## Persistence level: `load_data` / `save_data` (claims C2, C9) -/

/-- A persisted entry as found in `habits.json`: either a bare date string
(legacy format) or an object.  The `date` field of an object is itself a
`PVal` because the migration in `load_data` wraps the raw list element `d`
as `{"date": d, "duration": None}` whatever `d` is. -/
inductive PVal where
  | pstr (s : String)
  | pobj (date : PVal) (duration : Option Duration)
deriving DecidableEq

/-- The per-habit migration step inside `load_data` (lines 56-59):
`if entries and isinstance(entries[0], str): data[habit] = [{"date": d, "duration": None} for d in entries]`.
The list is rewritten only when it is nonempty and its FIRST element is a
bare string; in that case every element `d` becomes `{"date": d, "duration": None}`. -/
def migrate (entries : List PVal) : List PVal :=
  match entries with
  | PVal.pstr _ :: _ => entries.map (fun d => PVal.pobj d none)
  | _ => entries

/-- Function `load_data` (lines 50-60) after JSON parsing: apply the legacy migration
habit-by-habit.  (The `os.path.exists` miss returns the empty store, i.e.
`load_data [] = []`.) -/
def load_data (data : List (String × List PVal)) : List (String × List PVal) :=
  data.map (fun p => (p.1, migrate p.2))

/-- The JSON value written for one in-memory entry by `json.dump`. -/
def encodeEntry (e : Entry) : PVal :=
  PVal.pobj (PVal.pstr e.date) e.duration

/-- Function `save_data` (lines 62-64) at the level of JSON values: `json.dump` writes
the store verbatim, each entry as the object `{"date": ..., "duration": ...}`;
fidelity of the textual JSON encoding is a standard-library guarantee. -/
def save_data (store : Store) : List (String × List PVal) :=
  store.map (fun p => (p.1, p.2.map encodeEntry))

/-- Read one persisted value back as a structured in-memory entry. -/
def decodeEntry : PVal → Option Entry
  | PVal.pobj (PVal.pstr d) dur => some ⟨d, dur⟩
  | _ => none

/-- Read a persisted entry list back; `none` if some element is not a
structured `{date: <string>, duration}` object. -/
def decodeEntries : List PVal → Option (List Entry)
  | [] => some []
  | e :: rest =>
    match decodeEntry e, decodeEntries rest with
    | some a, some l => some (a :: l)
    | _, _ => none

/-- Read a whole persisted store back at the typed level. -/
def decodeStore : List (String × List PVal) → Option Store
  | [] => some []
  | p :: t =>
    match decodeEntries p.2, decodeStore t with
    | some es, some rest => some ((p.1, es) :: rest)
    | _, _ => none

/-! ## Average duration in `view_habits` (claim C5) -/

/-- Python: `timed_entries = [e for e in entries if isinstance(e, dict) and e.get("duration")]`
(typed level: entries whose duration is present). -/
def timedEntries (entries : List Entry) : List Entry :=
  entries.filter (fun e => e.duration.isSome)

/-- Python: `sum(e["duration"].get("totalSeconds", 0) for e in timed_entries)`. -/
def sumSeconds : List Entry → Nat
  | [] => 0
  | e :: t => (e.duration.map Duration.totalSeconds).getD 0 + sumSeconds t

/-- Python `f"{n:02d}"` for a natural number. -/
def pad2 (n : Nat) : String :=
  if n < 10 then "0" ++ toString n else toString n

/-- Lines 383-386: `avg_hours = avg_seconds // 3600`,
`avg_minutes = (avg_seconds % 3600) // 60`, `avg_secs = avg_seconds % 60`,
each rendered with `:02d` and joined with colons. -/
def format_avg (avgSeconds : Nat) : String :=
  pad2 (avgSeconds / 3600) ++ ":" ++ pad2 ((avgSeconds % 3600) / 60) ++ ":"
    ++ pad2 (avgSeconds % 60)

/-- The average-time display of `view_habits` (lines 379-387): shown only
when there is at least one timed entry; `avg_seconds = total_seconds // len(timed_entries)`. -/
def averageTime (entries : List Entry) : Option String :=
  let timed := timedEntries entries
  if timed.isEmpty then none
  else some (format_avg (sumSeconds timed / timed.length))

/-! ## Reminder reconciliation strings (claims C3, C6)

String operations are modelled structurally over `List Char` so that every
definition is executable and provable by induction; `String` wrappers state
the claims over ordinary string literals. -/

/-- The characters after the FIRST occurrence of `c`, or `none` when `c` does
not occur: the pair `message.split(':', 1)` has a second component exactly
when `':' in message`. -/
def splitAfterFirst (c : Char) : List Char → Option (List Char)
  | [] => none
  | x :: xs => if x = c then some xs else splitAfterFirst c xs

/-- Python `s.split(c)`: split on EVERY occurrence of `c`, keeping empty
pieces (`"a,,b".split(',') == ['a', '', 'b']`). -/
def splitOnChar (c : Char) : List Char → List (List Char)
  | [] => [[]]
  | x :: xs =>
    let rest := splitOnChar c xs
    if x = c then [] :: rest
    else (x :: rest.headD []) :: rest.tail

/-- Python `s.strip()`: drop leading and trailing whitespace. -/
def trimChars (s : List Char) : List Char :=
  ((s.dropWhile Char.isWhitespace).reverse.dropWhile Char.isWhitespace).reverse

/-- Function `extract_habits_from_reminder` (lines 265-277): if the message contains a
colon, take the part after the first colon, strip it; if it contains commas,
split on commas and strip each piece, else that single piece; no colon gives
`[]`.  (`message.split(':', 1)` always has length 2 when `':' in message`,
so the inner `len(parts) == 2` test is always true on that branch.) -/
def extract_habits_from_reminder (message : List Char) : List (List Char) :=
  match splitAfterFirst ':' message with
  | none => []
  | some rest =>
    let habit_part := trimChars rest
    if habit_part.contains ',' then (splitOnChar ',' habit_part).map trimChars
    else [habit_part]

/-- String-level wrapper for `extract_habits_from_reminder`. -/
def extractS (message : String) : List String :=
  (extract_habits_from_reminder message.data).map (fun cs => String.mk cs)

/-- Python `str.lower()` restricted to ASCII letters (all habit names in the
claims are ASCII). -/
def lowerChars (s : List Char) : List Char :=
  s.map Char.toLower

/-- The duplicate suppression of `do_reminded_habit` (lines 834-838):
`if h and h not in unique_habits: unique_habits.append(h)` — empty candidates
and exact duplicates are dropped, first-seen order kept.  `seen` is the list
already emitted. -/
def dedupKeep (seen : List (List Char)) : List (List Char) → List (List Char)
  | [] => []
  | h :: t =>
    if h.isEmpty || seen.contains h then dedupKeep seen t
    else h :: dedupKeep (h :: seen) t

/-- The matching loop of `do_reminded_habit` (lines 849-855) together with
the preceding deduplication: for each surviving candidate, the first tracked
habit whose lowercase form equals the lowercase form of the candidate (`break`
after the first hit); candidates without a match contribute nothing. -/
def matchToHabits (candidates habitNames : List (List Char)) : List (List Char) :=
  (dedupKeep [] candidates).filterMap
    (fun r => habitNames.find? (fun a => lowerChars r == lowerChars a))

/-- String-level wrapper for `matchToHabits`. -/
def matchToHabitsS (candidates habitNames : List String) : List String :=
  (matchToHabits (candidates.map String.data) (habitNames.map String.data)).map
    (fun cs => String.mk cs)

/-! ## Rename (claim C8) -/

/-- Caller-visible outcome of `edit_habit`, read off the printed messages:
`cancelled` ("Cancelled renaming." / "Rename cancelled or unchanged."),
`notFound` ("Habit not found."), `duplicate` ("... already exists."),
`renamed` ("Renamed ... to ..."). -/
inductive RenameOutcome where
  | cancelled
  | notFound
  | duplicate
  | renamed
deriving DecidableEq

/-- Python `data.pop(old)`: remove the (unique) binding of `old` — the first one
in iteration order, matching `dict.pop` on duplicate-free Python dicts. -/
def popKey : Store → String → Store
  | [], _ => []
  | p :: t, old => if p.1 = old then t else p :: popKey t old

/-- Core of `edit_habit` (lines 531-550), after the formatter gateway has
produced the final new name (`format_text` degrades to the identity when the
service is unavailable): empty or unresolved old name cancels; missing old
name is not found; empty new name or `new == old` cancels; an existing new
key (case-sensitive `formatted_new in data`) is a duplicate and nothing
changes; otherwise `data[new] = data.pop(old)` moves the entry list to the
`new` key, which Python appends at the end of the dict order. -/
def edit_habit (data : Store) (old new : String) : Store × RenameOutcome :=
  if old = "" then (data, RenameOutcome.cancelled)
  else if ¬ hasHabit data old then (data, RenameOutcome.notFound)
  else if new = "" ∨ new = old then (data, RenameOutcome.cancelled)
  else if hasHabit data new then (data, RenameOutcome.duplicate)
  else (popKey data old ++ [(new, entriesOf data old)], RenameOutcome.renamed)

/-! ## Service gateways (claim C7) -/

/-- One HTTP exchange as the gateway code observes it.  `netError` is any
exception raised by `requests` (connection error, timeout); `response st none`
is a reply whose body `.json()` fails to parse; `response st (some b)` is a
reply with status `st` and parsed body `b`. -/
inductive HttpOutcome (α : Type) where
  | netError : HttpOutcome α
  | response (status : Nat) (body : Option α) : HttpOutcome α

/-- Parsed body of `POST /timers/start`: `timerId` is `result["timer"]["id"]`,
`none` when the key is missing (the Python `KeyError` lands in the `except`). -/
structure TimerStartBody where
  success : Bool
  timerId : Option Nat

/-- Parsed body of `POST /timers/<id>/stop`: `elapsedTime` is
`result["timer"]["elapsedTime"]`, `none` when missing. -/
structure TimerStopBody where
  success : Bool
  elapsedTime : Option Duration

/-- Parsed body carrying only a `success` flag (`result.get("success", False)`). -/
structure SuccessBody where
  success : Bool

/-- Parsed body of the formatter `POST /format`: `formatted` is
`result["formatted"]`, `none` when missing. -/
structure FormatBody where
  success : Bool
  formatted : Option String

/-- One reminder record as returned by `GET /reminders`. -/
structure Reminder where
  id : Nat
  message : String
  fired : Bool

/-- Function `start_timer` (lines 84-94): note the status code is never inspected —
the body is parsed and trusted whenever it parses. -/
def start_timer : HttpOutcome TimerStartBody → Option Nat
  | HttpOutcome.netError => none
  | HttpOutcome.response _ none => none
  | HttpOutcome.response _ (some r) => if r.success then r.timerId else none

/-- Function `stop_timer` (lines 96-105): same shape as `start_timer`. -/
def stop_timer : HttpOutcome TimerStopBody → Option Duration
  | HttpOutcome.netError => none
  | HttpOutcome.response _ none => none
  | HttpOutcome.response _ (some r) => if r.success then r.elapsedTime else none

/-- Function `create_timed_reminder` (lines 124-132): `result.get("success", False)`,
status code not inspected. -/
def create_timed_reminder : HttpOutcome SuccessBody → Bool
  | HttpOutcome.netError => false
  | HttpOutcome.response _ none => false
  | HttpOutcome.response _ (some r) => r.success

/-- Function `get_all_reminders` (lines 168-176): the one list gateway that checks
`status_code == 200`; every failure path returns `[]`. -/
def get_all_reminders : HttpOutcome (List Reminder) → List Reminder
  | HttpOutcome.netError => []
  | HttpOutcome.response _ none => []
  | HttpOutcome.response st (some l) => if st = 200 then l else []

/-- Function `delete_reminder` (lines 178-185): `result.get("success", False)`,
status code not inspected. -/
def delete_reminder : HttpOutcome SuccessBody → Bool
  | HttpOutcome.netError => false
  | HttpOutcome.response _ none => false
  | HttpOutcome.response _ (some r) => r.success

/-- Function `format_text` (lines 205-228): empty or all-whitespace text is returned
unchanged before any request; otherwise any failure (exception, unparseable
body, missing `success` or `formatted` key) falls back to the original text. -/
def format_text (text : String) : HttpOutcome FormatBody → String
  | HttpOutcome.netError => text
  | HttpOutcome.response _ none => text
  | HttpOutcome.response _ (some r) =>
    if text.isEmpty || (trimChars text.data).isEmpty then text
    else if r.success then r.formatted.getD text else text

/-! ## The persisted file write in `save_data` (claim C4) -/

/-- Python `open(DATA_FILE, "w")`: opening with mode `"w"` truncates the file to
empty before anything is written. -/
def save_open_w (_prior : List Char) : List Char := []

/-- Appending one flushed chunk of `json.dump` output to the file. -/
def save_write (file chunk : List Char) : List Char := file ++ chunk

/-- The on-disk content when `json.dump` fails (or the process dies) after
only the first `k` characters of the serialization were written: mode `"w"`
has already truncated the prior content. -/
def save_data_interrupted (prior serialized : List Char) (k : Nat) : List Char :=
  save_write (save_open_w prior) (serialized.take k)

/-! ## Helper lemmas -/

theorem isCompletedToday_append_today (l : List Entry) (today : String)
    (d : Option Duration) :
    isCompletedToday (l ++ [⟨today, d⟩]) today = true := by
  unfold isCompletedToday
  rw [List.any_append]
  simp only [List.any_cons, List.any_nil, beq_self_eq_true, Bool.or_false, Bool.or_true]

theorem hasHabit_iff (l : Store) (n : String) :
    hasHabit l n = true ↔ n ∈ l.map Prod.fst := by
  induction l with
  | nil => simp [hasHabit]
  | cons p t ih =>
    simp only [hasHabit, List.map_cons, List.mem_cons, Bool.or_eq_true, beq_iff_eq, ih]
    constructor
    · rintro (h | h)
      · exact Or.inl h.symm
      · exact Or.inr h
    · rintro (h | h)
      · exact Or.inl h.symm
      · exact Or.inr h

theorem hasHabit_append (l l2 : Store) (n : String) :
    hasHabit (l ++ l2) n = (hasHabit l n || hasHabit l2 n) := by
  induction l with
  | nil => simp [hasHabit]
  | cons p t ih => simp [hasHabit, ih, Bool.or_assoc]

theorem hasHabit_popKey (data : Store) (old n : String)
    (h : hasHabit data n = false) : hasHabit (popKey data old) n = false := by
  induction data with
  | nil => rfl
  | cons p t ih =>
    simp only [hasHabit, Bool.or_eq_false_iff] at h
    by_cases hp : p.1 = old
    · simpa [popKey, hp] using h.2
    · simp [popKey, hp, hasHabit, h.1, ih h.2]

theorem hasHabit_popKey_self (data : Store) (old : String)
    (hnd : (data.map Prod.fst).Nodup) : hasHabit (popKey data old) old = false := by
  induction data with
  | nil => rfl
  | cons p t ih =>
    rw [List.map_cons, List.nodup_cons] at hnd
    by_cases hp : p.1 = old
    · simp only [popKey]
      rw [if_pos hp]
      cases hh : hasHabit t old with
      | false => rfl
      | true =>
        exact absurd ((hasHabit_iff t old).mp hh) (hp ▸ hnd.1)
    · simp [popKey, hp, hasHabit, ih hnd.2]

theorem entriesOf_popKey_other (data : Store) (old h : String) (hne : h ≠ old) :
    entriesOf (popKey data old) h = entriesOf data h := by
  induction data with
  | nil => rfl
  | cons p t ih =>
    by_cases hp : p.1 = old
    · have hph : p.1 ≠ h := fun hc => hne (hc ▸ hp)
      simp [popKey, entriesOf, hp, hph, Ne.symm hne, ih]
    · by_cases phh : p.1 = h
      · simp [popKey, entriesOf, hp, phh, hne]
      · simp [popKey, entriesOf, hp, phh, ih]

theorem entriesOf_append_single_self (l : Store) (nw : String) (es : List Entry)
    (h : hasHabit l nw = false) : entriesOf (l ++ [(nw, es)]) nw = es := by
  induction l with
  | nil => simp [entriesOf]
  | cons p t ih =>
    simp only [hasHabit, Bool.or_eq_false_iff] at h
    have hp : p.1 ≠ nw := by simpa using h.1
    simp [entriesOf, hp, ih h.2]

theorem entriesOf_append_single_other (l : Store) (nw h : String) (es : List Entry)
    (hne : h ≠ nw) : entriesOf (l ++ [(nw, es)]) h = entriesOf l h := by
  induction l with
  | nil => simp [entriesOf, Ne.symm hne]
  | cons p t ih =>
    by_cases hp : p.1 = h
    · simp [entriesOf, hp]
    · simp [entriesOf, hp, ih]

theorem migrate_encoded (es : List Entry) :
    migrate (es.map encodeEntry) = es.map encodeEntry := by
  cases es with
  | nil => rfl
  | cons e t => rfl

theorem decodeEntries_encoded (es : List Entry) :
    decodeEntries (es.map encodeEntry) = some es := by
  induction es with
  | nil => rfl
  | cons e t ih => simp [decodeEntries, decodeEntry, encodeEntry, ih]

theorem timedEntries_idem (entries : List Entry) :
    timedEntries (timedEntries entries) = timedEntries entries := by
  simp [timedEntries, List.filter_filter]

theorem splitAfterFirst_eq_none (c : Char) (l : List Char) (h : c ∉ l) :
    splitAfterFirst c l = none := by
  induction l with
  | nil => rfl
  | cons x xs ih =>
    have hx : x ≠ c := fun hc => h (hc ▸ List.mem_cons_self x xs)
    simp only [List.mem_cons, not_or] at h
    simp [splitAfterFirst, hx, ih h.2]

theorem splitAfterFirst_append (c : Char) (pre post : List Char) (h : c ∉ pre) :
    splitAfterFirst c (pre ++ c :: post) = some post := by
  induction pre with
  | nil => simp [splitAfterFirst]
  | cons x xs ih =>
    simp only [List.mem_cons, not_or] at h
    have hx : x ≠ c := fun hc => h.1 hc.symm
    simp [splitAfterFirst, hx, ih h.2]

theorem dedupKeep_sublist (l : List (List Char)) :
    ∀ seen, List.Sublist (dedupKeep seen l) l := by
  induction l with
  | nil => intro seen; simp [dedupKeep]
  | cons h t ih =>
    intro seen
    by_cases hb : (h.isEmpty || seen.contains h) = true
    · simp only [dedupKeep, if_pos hb]
      exact (ih seen).cons h
    · simp only [dedupKeep, if_neg hb]
      exact (ih (h :: seen)).cons₂ h

theorem nodup_filterMap_firstMatch (habitNames : List (List Char)) :
    ∀ l : List (List Char),
    List.Pairwise (fun a b => lowerChars a ≠ lowerChars b) l →
    (l.filterMap
      (fun r => habitNames.find? (fun a => lowerChars r == lowerChars a))).Nodup := by
  intro l hp
  induction l with
  | nil => simp
  | cons r t ih =>
    rw [List.pairwise_cons] at hp
    cases hf : habitNames.find? (fun a => lowerChars r == lowerChars a) with
    | none => simpa [List.filterMap_cons, hf] using ih hp.2
    | some x =>
      rw [List.filterMap_cons_some
        (f := fun r => List.find? (fun a => lowerChars r == lowerChars a) habitNames) hf]
      refine List.nodup_cons.mpr ⟨?_, ih hp.2⟩
      intro hx
      obtain ⟨b, hb, hfb⟩ := List.mem_filterMap.mp hx
      have h1b := List.find?_some (p := fun a => lowerChars r == lowerChars a) hf
      have h2b := List.find?_some (p := fun a => lowerChars b == lowerChars a) hfb
      simp only [] at h1b h2b
      have h1 : lowerChars r = lowerChars x := eq_of_beq h1b
      have h2 : lowerChars b = lowerChars x := eq_of_beq h2b
      exact hp.1 b hb (h1.trans h2.symm)

/-! ## Claim theorems -/

/-- Claim C1: marking a habit that already has an entry dated today, without
any override (the `mark` flow offers none), is a no-op reported with a
message: the store is returned unchanged and `save_data` is not called (the
boolean component); in particular after a second same-day `mark_habit` call
the entry list length and contents are unchanged and nothing is re-saved. -/
theorem c1_mark_already_completed_noop (data : Store) (name today : String) :
    (isCompletedToday (entriesOf data name) today = true →
      mark_habit data name today = (data, false))
    ∧ mark_habit (mark_habit data name today).1 name today
        = ((mark_habit data name today).1, false) := by
  constructor
  · intro h
    by_cases hh : hasHabit data name <;> simp [mark_habit, hh, h]
  · by_cases hh : hasHabit data name
    · by_cases hc : isCompletedToday (entriesOf data name) today
      · simp [mark_habit, hh, hc]
      · have h1 : mark_habit data name today
            = (store_append data name ⟨today, none⟩, true) := by
          simp [mark_habit, hh, hc]
        rw [h1]
        have h2 : hasHabit (store_append data name ⟨today, none⟩) name = true := by
          rw [hasHabit_store_append]; exact hh
        have h3 := entriesOf_store_append_self data name ⟨today, none⟩ hh
        have h4 : isCompletedToday
            (entriesOf (store_append data name ⟨today, none⟩) name) today = true := by
          rw [h3]; exact isCompletedToday_append_today _ _ _
        simp [mark_habit, h2, h4]
    · simp [mark_habit, hh]

/-- Witness for C1: a store whose habit "Run" already has an entry dated
today; `mark_habit` leaves it unchanged and does not save. -/
theorem c1_witness :
    mark_habit [("Run", [⟨"2024-01-02", none⟩])] "Run" "2024-01-02"
      = ([("Run", [⟨"2024-01-02", none⟩])], false) :=
  (c1_mark_already_completed_noop [("Run", [⟨"2024-01-02", none⟩])] "Run"
    "2024-01-02").1 (by decide)

/-- Claim C2 counterexample: a persisted list whose FIRST element is a
structured entry but which still contains a bare date string is loaded
unchanged — the bare string `"2024-01-02"` is NOT upgraded, because the
migration only inspects `entries[0]`. -/
theorem c2_counterexample :
    load_data [("Run", [PVal.pobj (PVal.pstr "2024-01-01") none,
        PVal.pstr "2024-01-02"])]
      = [("Run", [PVal.pobj (PVal.pstr "2024-01-01") none,
          PVal.pstr "2024-01-02"])]
    ∧ PVal.pstr "2024-01-02"
        ∈ ((load_data [("Run", [PVal.pobj (PVal.pstr "2024-01-01") none,
            PVal.pstr "2024-01-02"])]).headD ("", [])).2 := by
  constructor
  · decide
  · decide

/-- Claim C2 (amended): migration triggers per habit by inspecting only the
first persisted element.  Whenever the list starts with a bare date string,
EVERY element `d` (also a structured one, in a mixed list) is replaced by
`{date: d, duration: None}` — in particular a homogeneous legacy list is
upgraded element-wise, giving the `{"Run": ["2024-01-01", "2024-01-02"]}`
example; a list whose first element is a structured entry, or an empty list,
is left untouched. -/
theorem c2_legacy_migration :
    load_data [("Run", [PVal.pstr "2024-01-01", PVal.pstr "2024-01-02"])]
      = [("Run", [PVal.pobj (PVal.pstr "2024-01-01") none,
          PVal.pobj (PVal.pstr "2024-01-02") none])]
    ∧ (∀ (s : String) (rest : List PVal),
        migrate (PVal.pstr s :: rest)
          = (PVal.pstr s :: rest).map (fun e => PVal.pobj e none))
    ∧ (∀ (d : PVal) (dur : Option Duration) (rest : List PVal),
        migrate (PVal.pobj d dur :: rest) = PVal.pobj d dur :: rest)
    ∧ migrate [] = [] := by
  refine ⟨by decide, fun s rest => rfl, fun d dur rest => rfl, rfl⟩

/-- Claim C3 counterexample: deduplication acts on exact candidate strings,
before lowercasing, so two distinct candidates with the same lowercase form
both match, and the matched habit appears twice in the output — refuting
"each matched habit appears at most once". -/
theorem c3_counterexample :
    matchToHabitsS ["meditation", "MEDITATION"] ["Meditation"]
      = ["Meditation", "Meditation"]
    ∧ ¬ (matchToHabitsS ["meditation", "MEDITATION"] ["Meditation"]).Nodup := by
  constructor
  · decide
  · decide

/-- Claim C3 (amended): `matchToHabits` suppresses empty candidates and exact
duplicate candidate occurrences (first-seen order), then outputs, in
candidate order, the first habit name whose lowercase form equals each
candidate; every output is a tracked habit name, and each matched habit
appears at most once provided no two distinct candidates share a lowercase
form. -/
theorem c3_match_candidates :
    matchToHabitsS ["meditation"] ["Meditation", "Reading"] = ["Meditation"]
    ∧ (∀ candidates habitNames : List (List Char),
        ∀ x ∈ matchToHabits candidates habitNames, x ∈ habitNames)
    ∧ (∀ candidates habitNames : List (List Char),
        List.Pairwise (fun a b => lowerChars a ≠ lowerChars b) candidates →
        (matchToHabits candidates habitNames).Nodup) := by
  refine ⟨by decide, ?_, ?_⟩
  · intro cs hs x hx
    simp only [matchToHabits] at hx
    obtain ⟨b, hb, hfb⟩ := List.mem_filterMap.mp hx
    exact List.mem_of_find?_eq_some hfb
  · intro cs hs hp
    exact nodup_filterMap_firstMatch hs (dedupKeep [] cs)
      (hp.sublist (dedupKeep_sublist cs []))

/-- Witness for C3 (amended): two candidates with distinct lowercase forms
yield a duplicate-free output. -/
theorem c3_witness :
    (matchToHabits ["run".data, "walk".data] ["Run".data, "Walk".data]).Nodup :=
  c3_match_candidates.2.2 ["run".data, "walk".data] ["Run".data, "Walk".data]
    (by decide)

/-- Claim C4 (code evaluated at the failing input): `save_data` opens the
data file with mode "w", which truncates it before `json.dump` streams the
serialization; if the dump fails after 3 characters the file holds only that
prefix and the prior content is gone — the write is not atomic. -/
theorem c4_truncate_then_write :
    save_data_interrupted "prior-store-content".data "serialized-store".data 3
      = "ser".data
    ∧ save_data_interrupted "prior-store-content".data "serialized-store".data 3
      ≠ "prior-store-content".data := by
  constructor
  · decide
  · decide

/-- Claim C5: the displayed average is computed only over entries with a
non-null duration (inserting or removing untimed entries cannot change it,
and it is absent exactly when there is no timed entry), and durations
[60, 120, 180] average to 120 seconds, formatted "00:02:00" by integer
division with two-digit zero padding. -/
theorem c5_average_duration :
    (∀ entries : List Entry,
      averageTime entries = averageTime (timedEntries entries))
    ∧ (∀ entries : List Entry,
        (averageTime entries = none ↔ timedEntries entries = []))
    ∧ averageTime [⟨"2024-01-01", some ⟨60, "00:01:00"⟩⟩,
        ⟨"2024-01-02", some ⟨120, "00:02:00"⟩⟩,
        ⟨"2024-01-03", some ⟨180, "00:03:00"⟩⟩] = some "00:02:00" := by
  refine ⟨?_, ?_, by decide⟩
  · intro es
    simp [averageTime, timedEntries_idem]
  · intro es
    constructor
    · intro h
      by_cases he : (timedEntries es).isEmpty
      · exact List.isEmpty_iff.mp he
      · simp [averageTime, he] at h
    · intro h
      simp [averageTime, h]

/-- Claim C6: `extract_habits_from_reminder` yields nothing without a colon;
with a colon it takes the substring after the FIRST colon, trims it, and
splits on commas (trimming each piece) when commas are present, else keeps
the single trimmed candidate; the alarm-clock reminder example parses to
["Meditation", "Reading"]. -/
theorem c6_extract_candidates :
    (∀ message : List Char, ':' ∉ message →
      extract_habits_from_reminder message = [])
    ∧ (∀ pre post : List Char, ':' ∉ pre →
        extract_habits_from_reminder (pre ++ ':' :: post) =
          (if (trimChars post).contains ',' then
            (splitOnChar ',' (trimChars post)).map trimChars
          else [trimChars post]))
    ∧ extractS "⏰ Time to do your habit: Meditation, Reading"
        = ["Meditation", "Reading"]
    ∧ extractS "Time to do your habit: Meditation" = ["Meditation"] := by
  refine ⟨?_, ?_, by decide, by decide⟩
  · intro m h
    simp [extract_habits_from_reminder, splitAfterFirst_eq_none ':' m h]
  · intro pre post h
    simp [extract_habits_from_reminder, splitAfterFirst_append ':' pre post h]

/-- Witness for C6: a message without a colon gives no candidates, and the
part after the first colon is trimmed into a single candidate. -/
theorem c6_witness :
    extract_habits_from_reminder "no colon here".data = []
    ∧ extract_habits_from_reminder ("Habit".data ++ ':' :: " Run".data)
      = ["Run".data] := by
  constructor
  · exact c6_extract_candidates.1 "no colon here".data (by decide)
  · rw [c6_extract_candidates.2.1 "Habit".data " Run".data (by decide)]
    decide

/-- Claim C7 counterexample: `start_timer` never inspects the HTTP status
code, so a non-2xx (here 500) response whose body parses with
`success: true` returns the timer id instead of the fallback `None`. -/
theorem c7_counterexample :
    start_timer (HttpOutcome.response 500 (some ⟨true, some 7⟩)) = some 7
    ∧ some 7 ≠ (none : Option Nat) := ⟨rfl, by decide⟩

/-- Claim C7 (amended): on a network error/timeout and on a malformed
(unparseable) response every modelled gateway call returns its designated
fallback (`none`, `false`, `[]`, or the original text) and, being a total
function, raises nothing; non-2xx status alone yields the fallback for the
reminder list gateway (the only one that checks `status_code`), while the
other calls trust whatever body parses. -/
theorem c7_gateway_fallbacks (st : Nat) (text : String) :
    start_timer HttpOutcome.netError = none
    ∧ start_timer (HttpOutcome.response st none) = none
    ∧ stop_timer HttpOutcome.netError = none
    ∧ stop_timer (HttpOutcome.response st none) = none
    ∧ create_timed_reminder HttpOutcome.netError = false
    ∧ create_timed_reminder (HttpOutcome.response st none) = false
    ∧ get_all_reminders HttpOutcome.netError = []
    ∧ get_all_reminders (HttpOutcome.response st none) = []
    ∧ delete_reminder HttpOutcome.netError = false
    ∧ delete_reminder (HttpOutcome.response st none) = false
    ∧ format_text text HttpOutcome.netError = text
    ∧ format_text text (HttpOutcome.response st none) = text
    ∧ (st ≠ 200 → ∀ body, get_all_reminders (HttpOutcome.response st body) = []) := by
  refine ⟨rfl, rfl, rfl, rfl, rfl, rfl, rfl, rfl, rfl, rfl, rfl, rfl, ?_⟩
  intro h body
  cases body with
  | none => rfl
  | some l => simp [get_all_reminders, h]

/-- Witness for C7 (amended): a 500 reply with a well-formed list body still
falls back to the empty list on the reminder list gateway. -/
theorem c7_witness :
    get_all_reminders (HttpOutcome.response 500 (some [])) = [] :=
  (c7_gateway_fallbacks 500 "x").2.2.2.2.2.2.2.2.2.2.2.2 (by decide) (some [])

/-- Claim C8 counterexample: renaming a habit to its own (existing) name is
reported as "Rename cancelled or unchanged", not as a duplicate-name
failure, although the new name exists in the store. -/
theorem c8_counterexample :
    edit_habit [("Run", [])] "Run" "Run" = ([("Run", [])], RenameOutcome.cancelled)
    ∧ RenameOutcome.cancelled ≠ RenameOutcome.duplicate := by
  constructor
  · decide
  · decide

/-- Claim C8 (amended): for a nonempty new name different from the old one,
rename fails with the duplicate outcome exactly when the new name already
exists (case-sensitive), leaving the whole store — in particular both entry
lists — unchanged; otherwise it moves the entry list from the old key to the
new key preserving entry order, removes the old key, and leaves the entries
of every other habit unchanged. -/
theorem c8_rename (data : Store) (old nw : String)
    (hnd : (data.map Prod.fst).Nodup)
    (hold : hasHabit data old = true) (ho : old ≠ "")
    (hn : nw ≠ "") (hno : nw ≠ old) :
    (hasHabit data nw = true →
      edit_habit data old nw = (data, RenameOutcome.duplicate))
    ∧ (hasHabit data nw = false →
        (edit_habit data old nw).2 = RenameOutcome.renamed
        ∧ entriesOf (edit_habit data old nw).1 nw = entriesOf data old
        ∧ hasHabit (edit_habit data old nw).1 old = false
        ∧ ∀ h, h ≠ old → h ≠ nw →
            entriesOf (edit_habit data old nw).1 h = entriesOf data h) := by
  constructor
  · intro hdup
    simp [edit_habit, ho, hold, hn, hno, hdup]
  · intro hnew
    have hres : edit_habit data old nw
        = (popKey data old ++ [(nw, entriesOf data old)], RenameOutcome.renamed) := by
      simp [edit_habit, ho, hold, hn, hno, hnew]
    refine ⟨by rw [hres], ?_, ?_, ?_⟩
    · rw [hres]
      exact entriesOf_append_single_self _ _ _ (hasHabit_popKey data old nw hnew)
    · rw [hres]
      rw [hasHabit_append]
      have h1 := hasHabit_popKey_self data old hnd
      have h2 : hasHabit [(nw, entriesOf data old)] old = false := by
        simp [hasHabit, hno]
      rw [h1, h2]
      rfl
    · intro h hho hhn
      rw [hres]
      rw [entriesOf_append_single_other _ _ _ _ hhn]
      exact entriesOf_popKey_other data old h hho

/-- Witness for C8 (amended): renaming "Run" to the existing "Walk" is a
duplicate-name failure that changes nothing. -/
theorem c8_witness :
    edit_habit [("Run", []), ("Walk", [])] "Run" "Walk"
      = ([("Run", []), ("Walk", [])], RenameOutcome.duplicate) :=
  (c8_rename [("Run", []), ("Walk", [])] "Run" "Walk" (by decide) (by decide)
    (by decide) (by decide) (by decide)).1 (by decide)

theorem load_save_encoded (l : Store) :
    load_data (save_data l) = l.map (fun q => (q.1, q.2.map encodeEntry)) := by
  induction l with
  | nil => rfl
  | cons p t ih =>
    show (p.1, migrate (p.2.map encodeEntry)) :: load_data (save_data t)
        = (p.1, p.2.map encodeEntry) :: t.map (fun q => (q.1, q.2.map encodeEntry))
    rw [migrate_encoded, ih]

theorem decodeStore_encoded (l : Store) :
    decodeStore (l.map (fun q => (q.1, q.2.map encodeEntry))) = some l := by
  induction l with
  | nil => rfl
  | cons p t ih => simp [decodeStore, decodeEntries_encoded, ih]

/-- Claim C9: for every well-formed store (each entry a `{date, duration}`
record, which the `Store` type enforces), loading what was saved returns the
same store — the migration leaves encoded structured entries untouched, habit
key order and entry order are both preserved. -/
theorem c9_save_load_roundtrip (store : Store) :
    decodeStore (load_data (save_data store)) = some store := by
  rw [load_save_encoded]
  exact decodeStore_encoded store

/-- Claim C10: recording a completion — `mark_habit` (no duration) or the
timed flow (optional duration, with or without the same-day override) —
neither adds nor removes habit keys and leaves the entry list of every
other habit unchanged. -/
theorem c10_completion_frame (data : Store) (name today : String)
    (override : Bool) (elapsed : Option Duration) (h : String) (hne : h ≠ name) :
    ((mark_habit data name today).1.map Prod.fst = data.map Prod.fst
      ∧ entriesOf (mark_habit data name today).1 h = entriesOf data h)
    ∧ ((timed_habit data name today override elapsed).map Prod.fst
        = data.map Prod.fst
      ∧ entriesOf (timed_habit data name today override elapsed) h
        = entriesOf data h) := by
  constructor
  · have hm : (mark_habit data name today).1 = data
        ∨ (mark_habit data name today).1 = store_append data name ⟨today, none⟩ := by
      by_cases hh : hasHabit data name
      · by_cases hc : isCompletedToday (entriesOf data name) today
        · exact Or.inl (by simp [mark_habit, hh, hc])
        · exact Or.inr (by simp [mark_habit, hh, hc])
      · exact Or.inl (by simp [mark_habit, hh])
    rcases hm with h1 | h1
    · rw [h1]; exact ⟨rfl, rfl⟩
    · rw [h1]
      exact ⟨keys_store_append data name _,
        entriesOf_store_append_other data name h _ hne⟩
  · have hm : timed_habit data name today override elapsed = data
        ∨ timed_habit data name today override elapsed
          = store_append data name ⟨today, elapsed⟩ := by
      by_cases hh : hasHabit data name
      · by_cases hc : (isCompletedToday (entriesOf data name) today && !override) = true
        · exact Or.inl (by simp [timed_habit, hh, hc])
        · exact Or.inr (by simp [timed_habit, hh, hc])
      · exact Or.inl (by simp [timed_habit, hh])
    rcases hm with h1 | h1
    · rw [h1]; exact ⟨rfl, rfl⟩
    · rw [h1]
      exact ⟨keys_store_append data name _,
        entriesOf_store_append_other data name h _ hne⟩

/-- Witness for C10: marking "Run" leaves the entries of "Walk" untouched. -/
theorem c10_witness :
    entriesOf (mark_habit [("Run", []), ("Walk", [⟨"2024-01-01", none⟩])]
        "Run" "2024-01-02").1 "Walk"
      = entriesOf [("Run", []), ("Walk", [⟨"2024-01-01", none⟩])] "Walk" :=
  ((c10_completion_frame [("Run", []), ("Walk", [⟨"2024-01-01", none⟩])]
    "Run" "2024-01-02" false none "Walk" (by decide)).1).2
